import Mathlib

/-!
Verification development for the OpenPecha tibetan-qna extraction scripts.

The Python sources under `src/TibQA/` are shallowly embedded here:
paragraph streams become `List String`, the per-variant parsers become
explicit state-passing folds over the paragraph list, and the file-system
boundary (docx reading, file writing) is replaced by the pure lists of
entries the scripts compute before writing them.

Naming: each embedded definition carries the name of the Python function
it models, suffixed with the file it comes from where the repository has
several near-identical copies (`qa_2.py`, `qa_3.py`, `qa_5.py`, `qa_6.py`,
`qa_7.py`, `combine_q_n_a.py`).
-/

/-! ## Characters and whitespace (Python `str.strip`, regex `\s`) -/

/-- Whitespace test matching Python `str.strip()` / regex `\s` on the
ASCII whitespace characters (space, tab, newline, carriage return,
vertical tab, form feed). -/
def pyIsSpace (c : Char) : Bool :=
  c = ' ' || c = '\t' || c = '\n' || c = '\x0d' || c = '\x0b' || c = '\x0c'

/-- Tibetan digit range `[༠-༩]` (U+0F20 .. U+0F29). -/
def isTibDigit (c : Char) : Bool :=
  0x0F20 ≤ c.toNat && c.toNat ≤ 0x0F29

/-- Tibetan letter range `[ཀ-ཨ]` (U+0F40 .. U+0F68), used by `qa_5.py`. -/
def isTibLetter (c : Char) : Bool :=
  0x0F40 ≤ c.toNat && c.toNat ≤ 0x0F68

/-- `str.strip()` on a character list: drop leading and trailing whitespace. -/
def stripL (l : List Char) : List Char :=
  ((l.dropWhile pyIsSpace).reverse.dropWhile pyIsSpace).reverse

/-- Python `str.strip()`. -/
def pyStrip (s : String) : String :=
  ⟨stripL s.data⟩

/-- Python `sep.join(xs)`. -/
def pyJoin (sep : String) : List String → String
  | [] => ""
  | [x] => x
  | x :: xs => x ++ sep ++ pyJoin sep xs

/-- Does the string start with at least one Tibetan digit
(regex `^[༠-༩]+` of `qa_2.py`, also `^[༠-༩]+\s*` of `qa_3.py`)? -/
def startsWithTibDigit (s : String) : Bool :=
  match s.data with
  | [] => false
  | c :: _ => isTibDigit c

/-- Python `s[n:]` (slicing drops the first `n` characters). -/
def pyDropChars (s : String) (n : Nat) : String :=
  ⟨s.data.drop n⟩

/-- Python `sub in s` restricted to the prefix test `s.startswith(p)`. -/
def pyStartsWith (s p : String) : Bool :=
  p.data.isPrefixOf s.data

/-! ## Numeral encoders -/

/-- `TIBETAN_DIGITS = "༠༡༢༣༤༥༦༧༨༩"` of `qa_2.py` / `qa_3.py` / `qa_6.py`,
and the list `tibetan_digits` of `qa.py` / `qa_7.py` / `html_parser.py`,
as a list of one-glyph strings indexed 0..9. -/
def TIBETAN_DIGITS : List String :=
  ["༠", "༡", "༢", "༣", "༤", "༥", "༦", "༧", "༨", "༩"]

/-- Repeated divmod producing the base-10 digits of `n` in
most-significant-first order; the fuel argument (always called with
`fuel ≥ n`) makes the recursion structural. -/
def pyStrDigitsAux : Nat → Nat → List Nat
  | 0, _ => []
  | fuel + 1, n => if n = 0 then [] else pyStrDigitsAux fuel (n / 10) ++ [n % 10]

/-- The base-10 digit sequence of `n` in most-significant-first order, as
produced by Python `str(n)` (so `str(0) = "0"` gives `[0]`). -/
def pyStrDigits (n : Nat) : List Nat :=
  if n = 0 then [0] else pyStrDigitsAux n n

/-- `int_to_tibetan` of `qa_6.py` (identically `convert_to_tibetan_number`
of `qa_7.py` without trailing glyph, and the total behaviour of
`int_to_tibetan_numeral` of `qa_2.py`/`qa_3.py`): map each base-10 digit
of `num` through `TIBETAN_DIGITS` and concatenate in original order. -/
def int_to_tibetan (num : Nat) : String :=
  pyJoin "" ((pyStrDigits num).map fun d => TIBETAN_DIGITS.getD d "")

/-- `int_to_tibetan_numeral` of `qa_2.py`, with its error branch made
explicit: indexing `TIBETAN_DIGITS[int(d)]` fails (propagating `none`)
whenever some digit has no alphabet entry. -/
def lookupTibetanDigits : List Nat → Option (List String)
  | [] => some []
  | d :: ds =>
    match TIBETAN_DIGITS[d]?, lookupTibetanDigits ds with
    | some s, some rest => some (s :: rest)
    | _, _ => none

/-- `int_to_tibetan_numeral` of `qa_2.py`, continued: the digit lookups
feed the join, and any failed lookup raises the `ValueError` of the
source. -/
def int_to_tibetan_numeral (num : Nat) : Except String String :=
  match lookupTibetanDigits (pyStrDigits num) with
  | some parts => Except.ok (pyJoin "" parts)
  | none => Except.error ("Failed to convert number " ++ toString num ++ " to Tibetan numeral")

/-- `convert_to_tibetan_number` of `qa.py`: the same digit mapping with the
fixed closing glyph `༽` appended (the bracketed encoding mode). -/
def convert_to_tibetan_number (n : Nat) : String :=
  pyJoin "" ((pyStrDigits n).map fun d => TIBETAN_DIGITS.getD d "") ++ "༽"

/-! ## Text normalizer (`clean_tibetan_text` of `qa.py`) -/

/-- One pass of `re.sub(r"\s+", " ", ·)`: every maximal run of whitespace
characters is replaced by a single space.  The `inRun` flag records
whether the scanner is inside a whitespace run whose replacement space
has already been emitted. -/
def collapseWsAux : Bool → List Char → List Char
  | _, [] => []
  | inRun, c :: cs =>
    if pyIsSpace c then
      if inRun then collapseWsAux true cs
      else ' ' :: collapseWsAux true cs
    else c :: collapseWsAux false cs

/-- `clean_tibetan_text` of `qa.py`:
`re.sub(r"\s+", " ", text.strip())`. -/
def clean_tibetan_text (text : String) : String :=
  ⟨collapseWsAux false (stripL text.data)⟩

/-! ## Variant A: `TibetanTextProcessor` of `qa_2.py` (leading-numeral) -/

/-- `duplicate_number_pattern.sub("༽ ", ·)` of `qa_2.py`: every occurrence
of `༽\s*[༠-༩]+\s*` is replaced by `"༽ "`.  The scan is left-to-right and
non-overlapping, like `re.sub`. -/
def subDupNumber : List Char → List Char
  | [] => []
  | c :: cs =>
    if c = '༽' then
      let t₁ := cs.dropWhile pyIsSpace
      if (t₁.takeWhile isTibDigit).isEmpty then c :: subDupNumber cs
      else '༽' :: ' ' :: subDupNumber ((t₁.dropWhile isTibDigit).dropWhile pyIsSpace)
    else c :: subDupNumber cs
termination_by l => l.length
decreasing_by
  all_goals simp_wf
  all_goals
    first
    | omega
    | exact Nat.lt_succ_of_le (le_trans (List.IsSuffix.length_le (List.dropWhile_suffix _))
        (le_trans (List.IsSuffix.length_le (List.dropWhile_suffix _))
          (List.IsSuffix.length_le (List.dropWhile_suffix _))))

/-- `clean_question_text` of `qa_2.py`: strip any leading run of Tibetan
digits (`initial_number_pattern.sub("", ·)` then `.strip()`), then replace
every `༽\s*[༠-༩]+\s*` by `"༽ "` (`duplicate_number_pattern`) and strip. -/
def clean_question_text_2 (text : String) : String :=
  let t₁ := stripL (text.data.dropWhile isTibDigit)
  ⟨stripL (subDupNumber t₁)⟩

/-- `answer_prefix = "ལན། "` of `qa_2.py` (four characters, with the
trailing space). -/
def answerMarker2 : String := "ལན། "

/-- The per-answer-line cleanup of `_process_current_qa` of `qa_2.py`:
drop the leading `"ལན། "` when present. -/
def stripAnswerMarker2 (line : String) : String :=
  if pyStartsWith line answerMarker2 then pyDropChars line answerMarker2.length else line

/-- Parser state of `parse_docx` of `qa_2.py`.  `current_question = none`
models Python `None`; a set question line is never the empty string, so
Python truthiness coincides with `Option.isSome`. -/
structure StateA where
  parsed_questions : List String
  parsed_answers : List String
  current_question : Option String
  current_answer : List String
  question_counter : Nat

/-- `_process_current_qa` of `qa_2.py`: format the numbered question and
answer entries for one record. -/
def process_current_qa_2 (question : String) (answer_lines : List String)
    (counter : Nat) : String × String :=
  (int_to_tibetan counter ++ "༽ " ++ clean_question_text_2 question,
   int_to_tibetan counter ++ "༽ " ++ pyJoin "\n" (answer_lines.map stripAnswerMarker2))

/-- One loop iteration of `parse_docx` of `qa_2.py`. -/
def stepA (st : StateA) (para : String) : StateA :=
  let line := pyStrip para
  if line = "" then st
  else if startsWithTibDigit line then
    match st.current_question with
    | some q =>
      let e := process_current_qa_2 q st.current_answer st.question_counter
      { parsed_questions := st.parsed_questions ++ [e.1]
        parsed_answers := st.parsed_answers ++ [e.2]
        current_question := some line
        current_answer := []
        question_counter := st.question_counter + 1 }
    | none =>
      { st with current_question := some line, current_answer := [] }
  else
    { st with current_answer := st.current_answer ++ [line] }

/-- Initial state of `parse_docx` of `qa_2.py`. -/
def initA : StateA := ⟨[], [], none, [], 1⟩

/-- `parse_docx` of `qa_2.py`: fold the paragraph stream, then process the
last open record. -/
def parse_docx_2 (paragraphs : List String) : List String × List String :=
  let st := paragraphs.foldl stepA initA
  match st.current_question with
  | some q =>
    let e := process_current_qa_2 q st.current_answer st.question_counter
    (st.parsed_questions ++ [e.1], st.parsed_answers ++ [e.2])
  | none => (st.parsed_questions, st.parsed_answers)

/-- The number of QuestionStart lines of a paragraph stream for the
leading-numeral classifiers of `qa_2.py` and `qa_3.py` (both fire exactly
when the stripped line starts with a Tibetan digit). -/
def countTibNumLines (paragraphs : List String) : Nat :=
  paragraphs.countP fun p => startsWithTibDigit (pyStrip p)

/-! ## Variant B: `TibetanTextProcessor` of `qa_3.py` (numeral + keyword) -/

/-- `answer_prefix = "ལན།"` of `qa_3.py` (three characters, no space). -/
def answerMarker3 : String := "ལན།"

/-- `clean_question_text` of `qa_3.py`: `question_number_pattern.sub("", ·)`
for `^[༠-༩]+\s*` followed by `.strip()`. -/
def clean_question_text_3 (text : String) : String :=
  if startsWithTibDigit text then
    ⟨stripL ((text.data.dropWhile isTibDigit).dropWhile pyIsSpace)⟩
  else pyStrip text

/-- Parser state of `parse_docx` of `qa_3.py`. -/
structure StateB where
  parsed_questions : List String
  parsed_answers : List String
  current_question : String
  current_answer : List String
  is_answer : Bool
  question_counter : Nat

/-- The emission block of `parse_docx` of `qa_3.py`, shared by the
question-start branch and the end-of-stream processing: a record is saved
only when both `current_question` and `current_answer` are non-empty. -/
def emitB (st : StateB) : StateB :=
  if st.current_question ≠ "" ∧ st.current_answer ≠ [] then
    { st with
      parsed_questions := st.parsed_questions ++
        [int_to_tibetan st.question_counter ++ "༽ " ++ clean_question_text_3 st.current_question]
      parsed_answers := st.parsed_answers ++
        [int_to_tibetan st.question_counter ++ "༽ " ++ pyJoin "\n" st.current_answer]
      current_question := ""
      current_answer := []
      question_counter := st.question_counter + 1 }
  else st

/-- One loop iteration of `parse_docx` of `qa_3.py`. -/
def stepB (st : StateB) (para : String) : StateB :=
  let line := pyStrip para
  if line = "" then st
  else if startsWithTibDigit line then
    let st := emitB st
    { st with current_question := line, is_answer := false }
  else if pyStartsWith line answerMarker3 then
    { st with is_answer := true
              current_answer := st.current_answer ++
                [pyStrip (pyDropChars line answerMarker3.length)] }
  else if st.is_answer then
    { st with current_answer := st.current_answer ++ [line] }
  else
    { st with current_question := st.current_question ++ " " ++ line }

/-- Initial state of `parse_docx` of `qa_3.py`. -/
def initB : StateB := ⟨[], [], "", [], false, 1⟩

/-- `parse_docx` of `qa_3.py`. -/
def parse_docx_3 (paragraphs : List String) : List String × List String :=
  let st := emitB (paragraphs.foldl stepB initB)
  (st.parsed_questions, st.parsed_answers)

/-! ## Variant D: `TibetanTextProcessor` of `qa_5.py` (bare alphabet marker) -/

/-- `alphabet_pattern = ^[ཀ-ཨ]\s*$` of `qa_5.py`: the line is exactly one
Tibetan letter, optionally followed by whitespace. -/
def isAlphabetMarker (s : String) : Bool :=
  match s.data with
  | [] => false
  | c :: rest => isTibLetter c && rest.all pyIsSpace

/-- Parser state of `parse_docx` of `qa_5.py` (both buffers are lists). -/
structure StateD where
  parsed_questions : List String
  parsed_answers : List String
  current_question : List String
  current_answer : List String
  question_counter : Nat

/-- The `re.sub(r"^[ཀ-ཨ]\s*", "", ·).strip()` step of
`_process_current_qa` of `qa_5.py`. -/
def stripAlphabetMarker (s : String) : String :=
  match s.data with
  | c :: rest => if isTibLetter c then ⟨stripL (rest.dropWhile pyIsSpace)⟩ else pyStrip s
  | [] => pyStrip s

/-- `_process_current_qa` of `qa_5.py`: note the Arabic (not Tibetan)
counter in the f-string `f"{counter}༽ "`. -/
def process_current_qa_5 (question answer : List String) (counter : Nat) :
    String × String :=
  let cleaned := stripAlphabetMarker (pyStrip (pyJoin " " question))
  (Nat.repr counter ++ "༽ " ++ cleaned,
   Nat.repr counter ++ "༽ " ++ pyStrip (pyJoin " " answer))

/-- One loop iteration of `parse_docx` of `qa_5.py`.  A record closes as
soon as EITHER buffer is non-empty when a new marker arrives. -/
def stepD (st : StateD) (para : String) : StateD :=
  let line := pyStrip para
  if line = "" then st
  else if isAlphabetMarker line then
    let st :=
      if st.current_question ≠ [] ∨ st.current_answer ≠ [] then
        let e := process_current_qa_5 st.current_question st.current_answer st.question_counter
        { parsed_questions := st.parsed_questions ++ [e.1]
          parsed_answers := st.parsed_answers ++ [e.2]
          current_question := []
          current_answer := []
          question_counter := st.question_counter + 1 }
      else st
    { st with current_question := st.current_question ++ [line] }
  else if st.current_question ≠ [] then
    if st.current_question.length = 1 then
      { st with current_question := st.current_question ++ [line] }
    else
      { st with current_answer := st.current_answer ++ [line] }
  else st

/-- Initial state of `parse_docx` of `qa_5.py`. -/
def initD : StateD := ⟨[], [], [], [], 1⟩

/-- `parse_docx` of `qa_5.py`: the trailing record is emitted when either
buffer is non-empty. -/
def parse_docx_5 (paragraphs : List String) : List String × List String :=
  let st := paragraphs.foldl stepD initD
  if st.current_question ≠ [] ∨ st.current_answer ≠ [] then
    let e := process_current_qa_5 st.current_question st.current_answer st.question_counter
    (st.parsed_questions ++ [e.1], st.parsed_answers ++ [e.2])
  else (st.parsed_questions, st.parsed_answers)

/-! ## Variant E: `TibetanDocProcessor` of `qa_6.py` (embedded bracket numeral) -/

/-- Attempt to match `question_pattern = ༼\s*[༠-༩]+\s*༽` of `qa_6.py` at
the head of the character list; on success return the matched substring. -/
def matchBracketNum (l : List Char) : Option (List Char) :=
  match l with
  | '༼' :: rest =>
    let w₁ := rest.takeWhile pyIsSpace
    let r₁ := rest.dropWhile pyIsSpace
    let digs := r₁.takeWhile isTibDigit
    if digs.isEmpty then none
    else
      let r₂ := r₁.dropWhile isTibDigit
      let w₂ := r₂.takeWhile pyIsSpace
      match r₂.dropWhile pyIsSpace with
      | '༽' :: _ => some ('༼' :: (w₁ ++ digs ++ w₂ ++ ['༽']))
      | _ => none
  | _ => none

/-- `question_pattern.search(line)` of `qa_6.py`: the leftmost match of
`༼\s*[༠-༩]+\s*༽` anywhere in the line, as `match.group(0)`. -/
def findBracketNum : List Char → Option (List Char)
  | [] => none
  | c :: cs =>
    match matchBracketNum (c :: cs) with
    | some m => some m
    | none => findBracketNum cs

/-- Python `line.replace(sub, "")` for a non-empty pattern: remove every
occurrence of `pat`. -/
def removeAllSub (pat : List Char) : List Char → List Char
  | [] => []
  | c :: cs =>
    if pat ≠ [] ∧ pat.isPrefixOf (c :: cs) then
      removeAllSub pat (cs.drop (pat.length - 1))
    else c :: removeAllSub pat cs
termination_by l => l.length
decreasing_by
  all_goals simp_wf
  all_goals omega

/-- `tseg_pattern.search(·) = r"་$"` of `qa_6.py`: does the accumulated
question text end with the tseg glyph? -/
def endsWithTseg (s : String) : Bool :=
  s.data.getLast? == some '་'

/-- Parser state of `process_docx` of `qa_6.py`. -/
structure StateE where
  questions : List String
  answers : List String
  current_question : String
  current_answer : List String
  question_counter : Nat

/-- One loop iteration of `process_docx` of `qa_6.py`. -/
def stepE (st : StateE) (para : String) : StateE :=
  let line := pyStrip para
  if line = "" then st
  else
    match findBracketNum line.data with
    | some m =>
      let st :=
        if st.current_question ≠ "" then
          { questions := st.questions ++ [pyStrip st.current_question]
            answers := st.answers ++
              [int_to_tibetan st.question_counter ++ "༽ " ++
                pyStrip (pyJoin "\n" st.current_answer)]
            current_question := ""
            current_answer := []
            question_counter := st.question_counter + 1 }
        else st
      let cq := pyStrip ⟨removeAllSub m line.data⟩
      { st with current_question :=
          int_to_tibetan st.question_counter ++ "༽ " ++ cq }
    | none =>
      if st.current_question ≠ "" ∧ endsWithTseg st.current_question then
        { st with current_question := st.current_question ++ " " ++ line }
      else
        { st with current_answer := st.current_answer ++ [line] }

/-- Initial state of `process_docx` of `qa_6.py`. -/
def initE : StateE := ⟨[], [], "", [], 1⟩

/-- The pure part of `process_docx` of `qa_6.py`: the question and answer
entry lists handed to `save_to_file`. -/
def process_docx_6 (paragraphs : List String) : List String × List String :=
  let st := paragraphs.foldl stepE initE
  if st.current_question ≠ "" then
    (st.questions ++ [pyStrip st.current_question],
     st.answers ++
       [int_to_tibetan st.question_counter ++ "༽ " ++ pyStrip (pyJoin "\n" st.current_answer)])
  else (st.questions, st.answers)

/-! ## Variant F: `TibetanDocProcessor.save_to_files` of `qa_7.py` -/

/-- The question entries written by `save_to_files` of `qa_7.py`:
`enumerate(self.questions, start=1)` with `convert_to_tibetan_number(idx)`
(same digit table, no bracket) and the `f"{num}༽ {text}\n\n"` format. -/
def save_to_files_entries (items : List String) : List String :=
  items.enum.map fun p => int_to_tibetan (p.1 + 1) ++ "༽ " ++ p.2 ++ "\n\n"

/-! ## Corpus Aggregator: `combine_q_n_a.py` -/

/-- `parse_text_file` of `combine_q_n_a.py`: keep the stripped non-empty
lines of the file. -/
def parse_text_file (lines : List String) : List String :=
  (lines.map pyStrip).filter (· ≠ "")

/-- `questions[i].split(" ", 1)[-1]` of `combine_q_n_a.py`: the remainder
of the line after its first space character; a line with no space at all
is returned unchanged (`split` yields a singleton and `[-1]` is the line
itself). -/
def afterFirstSpace : List Char → Option (List Char)
  | [] => none
  | c :: cs => if c = ' ' then some cs else afterFirstSpace cs

/-- The index-stripping step of `combine_question_answer_files`. -/
def split_space_last (s : String) : String :=
  match afterFirstSpace s.data with
  | some rest => ⟨rest⟩
  | none => s

/-- One per-document iteration of `combine_question_answer_files` of
`combine_q_n_a.py`: the accumulator holds `combined_data`,
`total_records` and `file_statistics`.  A document is the triple
(base name, raw question-file lines, raw answer-file lines). -/
def combineDoc (acc : List (String × String × String) × Nat × List (String × Nat))
    (doc : String × List String × List String) :
    List (String × String × String) × Nat × List (String × Nat) :=
  let questions := parse_text_file doc.2.1
  let answers := parse_text_file doc.2.2
  let record_count := min questions.length answers.length
  let pairs := (List.range record_count).map fun i =>
    (split_space_last (questions.getD i ""), split_space_last (answers.getD i ""), doc.1)
  (acc.1 ++ pairs, acc.2.1 + record_count, acc.2.2 ++ [(doc.1, record_count)])

/-- `combine_question_answer_files` of `combine_q_n_a.py`, over the list
of matched (base name, questions file, answers file) document triples
found in the directory. -/
def combine_question_answer_files (docs : List (String × List String × List String)) :
    List (String × String × String) × Nat × List (String × Nat) :=
  docs.foldl combineDoc ([], 0, [])

/-! ## Helper lemmas: digits and joins -/

lemma pyStrDigitsAux_zero (fuel : Nat) : pyStrDigitsAux fuel 0 = [] := by
  cases fuel <;> rfl

lemma pyStrDigitsAux_fuel :
    ∀ (fuel₁ fuel₂ n : Nat), n ≤ fuel₁ → n ≤ fuel₂ →
      pyStrDigitsAux fuel₁ n = pyStrDigitsAux fuel₂ n := by
  intro fuel₁
  induction fuel₁ with
  | zero =>
    intro fuel₂ n h₁ _
    have hn : n = 0 := Nat.le_zero.mp h₁
    subst hn
    rw [pyStrDigitsAux_zero, pyStrDigitsAux_zero]
  | succ f ih =>
    intro fuel₂ n h₁ h₂
    by_cases hn : n = 0
    · subst hn; rw [pyStrDigitsAux_zero, pyStrDigitsAux_zero]
    · have hpos : 0 < n := Nat.pos_of_ne_zero hn
      obtain ⟨g, rfl⟩ : ∃ g, fuel₂ = g + 1 := by
        cases fuel₂ with
        | zero => omega
        | succ g => exact ⟨g, rfl⟩
      show pyStrDigitsAux (f + 1) n = pyStrDigitsAux (g + 1) n
      simp only [pyStrDigitsAux, if_neg hn]
      have hdiv : n / 10 < n := Nat.div_lt_self hpos (by norm_num)
      rw [ih g (n / 10) (by omega) (by omega)]

lemma pyStrDigitsAux_lt :
    ∀ (fuel n : Nat), ∀ d ∈ pyStrDigitsAux fuel n, d < 10 := by
  intro fuel
  induction fuel with
  | zero => intro n d hd; simp [pyStrDigitsAux] at hd
  | succ f ih =>
    intro n d hd
    by_cases hn : n = 0
    · subst hn; rw [pyStrDigitsAux_zero] at hd; simp at hd
    · simp only [pyStrDigitsAux, if_neg hn, List.mem_append, List.mem_singleton] at hd
      rcases hd with hd | hd
      · exact ih _ d hd
      · subst hd; exact Nat.mod_lt _ (by norm_num)

lemma pyStrDigits_lt (n : Nat) : ∀ d ∈ pyStrDigits n, d < 10 := by
  intro d hd
  by_cases hn : n = 0
  · subst hn; simp [pyStrDigits] at hd; omega
  · rw [pyStrDigits, if_neg hn] at hd
    exact pyStrDigitsAux_lt n n d hd

lemma pyStrDigits_single (d : Nat) (h₁ : 1 ≤ d) (h₂ : d < 10) :
    pyStrDigits d = [d] := by
  have hd : d ≠ 0 := by omega
  rw [pyStrDigits, if_neg hd]
  obtain ⟨m, rfl⟩ : ∃ m, d = m + 1 := ⟨d - 1, by omega⟩
  show pyStrDigitsAux (m + 1) (m + 1) = [m + 1]
  simp only [pyStrDigitsAux, if_neg (Nat.succ_ne_zero m)]
  rw [Nat.div_eq_of_lt h₂, pyStrDigitsAux_zero, Nat.mod_eq_of_lt h₂]
  rfl

lemma pyStrDigits_step (n d : Nat) (hn : 1 ≤ n) (hd : d < 10) :
    pyStrDigits (10 * n + d) = pyStrDigits n ++ [d] := by
  have hbig : 10 * n + d ≠ 0 := by omega
  obtain ⟨m, hm⟩ : ∃ m, 10 * n + d = m + 1 := ⟨10 * n + d - 1, by omega⟩
  have hdiv : (m + 1) / 10 = n := by
    rw [← hm, Nat.mul_add_div (by norm_num), Nat.div_eq_of_lt hd]
    omega
  have hmod : (m + 1) % 10 = d := by
    rw [← hm, Nat.mul_add_mod]
    exact Nat.mod_eq_of_lt hd
  rw [pyStrDigits, if_neg hbig, hm]
  show pyStrDigitsAux (m + 1) (m + 1) = pyStrDigits n ++ [d]
  simp only [pyStrDigitsAux, if_neg (Nat.succ_ne_zero m)]
  rw [hdiv, hmod, pyStrDigitsAux_fuel m n n (by omega) (Nat.le_refl n),
    pyStrDigits, if_neg (by omega : n ≠ 0)]

lemma pyJoin_single (x : String) : pyJoin "" [x] = x := rfl

lemma String.append_empty_str (s : String) : s ++ "" = s := by
  simp

lemma pyJoin_append_empty_sep (l₁ l₂ : List String) :
    pyJoin "" (l₁ ++ l₂) = pyJoin "" l₁ ++ pyJoin "" l₂ := by
  induction l₁ with
  | nil => simp [pyJoin]
  | cons x xs ih =>
    cases xs with
    | nil =>
      cases l₂ with
      | nil => simp [pyJoin]
      | cons y ys => simp [pyJoin]
    | cons z zs =>
      have h₁ : pyJoin "" (x :: (z :: zs ++ l₂)) = x ++ "" ++ pyJoin "" (z :: zs ++ l₂) := rfl
      have h₂ : pyJoin "" (x :: z :: zs) = x ++ "" ++ pyJoin "" (z :: zs) := rfl
      show pyJoin "" (x :: (z :: zs ++ l₂)) = pyJoin "" (x :: z :: zs) ++ pyJoin "" l₂
      rw [h₁, h₂, ih]
      simp [String.append_assoc]

/-! ## Claim C7: the numeral encoder -/

/-- Claim C7: for every positive integer `n`, the numeral encoder is the
digit-wise concatenation (in original digit order) of the fixed 10-symbol
Tibetan digit alphabet: a single digit maps to its alphabet entry, a
trailing digit is appended after the encoding of the rest, and the
bracketed mode `convert_to_tibetan_number` is the same string with `༽`
appended. -/
theorem claim_C7 (n : Nat) (hn : 1 ≤ n) :
    convert_to_tibetan_number n = int_to_tibetan n ++ "༽"
    ∧ (n < 10 → int_to_tibetan n = TIBETAN_DIGITS.getD n "")
    ∧ ∀ d, d < 10 → int_to_tibetan (10 * n + d) = int_to_tibetan n ++ TIBETAN_DIGITS.getD d "" := by
  refine ⟨rfl, ?_, ?_⟩
  · intro hlt
    rw [int_to_tibetan, pyStrDigits_single n hn hlt]
    rfl
  · intro d hd
    rw [int_to_tibetan, int_to_tibetan, pyStrDigits_step n d hn hd,
      List.map_append, pyJoin_append_empty_sep]
    rfl

theorem claim_C7_witness :
    1 ≤ 3 ∧ int_to_tibetan (10 * 3 + 7) = int_to_tibetan 3 ++ TIBETAN_DIGITS.getD 7 "" :=
  ⟨by decide, (claim_C7 3 (by decide)).2.2 7 (by decide)⟩

/-! ## Claim C9: the error branch of the encoder is unreachable -/

lemma tibDigitLookup : ∀ d, d < 10 → TIBETAN_DIGITS[d]? = some (TIBETAN_DIGITS.getD d "") := by
  decide

lemma lookupTibetanDigits_of_lt (l : List Nat) (h : ∀ d ∈ l, d < 10) :
    lookupTibetanDigits l = some (l.map fun d => TIBETAN_DIGITS.getD d "") := by
  induction l with
  | nil => rfl
  | cons d ds ih =>
    rw [lookupTibetanDigits, tibDigitLookup d (h d (List.mem_cons_self d ds)),
      ih fun x hx => h x (List.mem_cons_of_mem d hx)]
    rfl

/-- Claim C9: for every engine-generated index `n ≥ 1` the conversion
succeeds: `int_to_tibetan_numeral` never takes its error branch, and its
value is the total encoder `int_to_tibetan`. -/
theorem claim_C9 (n : Nat) (_hn : 1 ≤ n) :
    int_to_tibetan_numeral n = Except.ok (int_to_tibetan n) := by
  rw [int_to_tibetan_numeral,
    lookupTibetanDigits_of_lt (pyStrDigits n) (pyStrDigits_lt n)]
  rfl

theorem claim_C9_witness :
    1 ≤ 12 ∧ int_to_tibetan_numeral 12 = Except.ok (int_to_tibetan 12) :=
  ⟨by decide, claim_C9 12 (by decide)⟩

/-! ## Claim C10: the aggregator's index stripping -/

lemma afterFirstSpace_none (l : List Char) (h : ∀ c ∈ l, c ≠ ' ') :
    afterFirstSpace l = none := by
  induction l with
  | nil => rfl
  | cons c cs ih =>
    rw [afterFirstSpace, if_neg (h c (List.mem_cons_self c cs))]
    exact ih fun x hx => h x (List.mem_cons_of_mem c hx)

lemma afterFirstSpace_append (pre rest : List Char) (h : ∀ c ∈ pre, c ≠ ' ') :
    afterFirstSpace (pre ++ ' ' :: rest) = some rest := by
  induction pre with
  | nil => rw [List.nil_append, afterFirstSpace, if_pos rfl]
  | cons c cs ih =>
    rw [List.cons_append, afterFirstSpace, if_neg (h c (List.mem_cons_self c cs))]
    exact ih fun x hx => h x (List.mem_cons_of_mem c hx)

/-- Claim C10: the index-stripping step of the Aggregator keeps only the
part after the first space of each line; a line containing no space at
all passes through to the corpus record unchanged. -/
theorem claim_C10 :
    (∀ s : String, (∀ c ∈ s.data, c ≠ ' ') → split_space_last s = s)
    ∧ ∀ (pre rest : List Char), (∀ c ∈ pre, c ≠ ' ') →
        split_space_last ⟨pre ++ ' ' :: rest⟩ = ⟨rest⟩ := by
  constructor
  · intro s h
    rw [split_space_last, afterFirstSpace_none s.data h]
  · intro pre rest h
    rw [split_space_last]
    show (match afterFirstSpace (pre ++ ' ' :: rest) with
      | some r => String.mk r
      | none => String.mk (pre ++ ' ' :: rest)) = String.mk rest
    rw [afterFirstSpace_append pre rest h]

theorem claim_C10_witness :
    split_space_last "nospace" = "nospace" ∧
    split_space_last ⟨['༡', '༽', ' '] ++ ['q', '1']⟩ = ⟨['q', '1']⟩ := by
  constructor
  · exact claim_C10.1 "nospace" (by decide)
  · exact claim_C10.2 ['༡', '༽'] ['q', '1'] (by decide)

/-! ## Claim C6: aggregator pair counts -/

/-- The effective pair count the Aggregator uses for one document. -/
def perDocCount (doc : String × List String × List String) : Nat :=
  min (parse_text_file doc.2.1).length (parse_text_file doc.2.2).length

lemma combine_fold (docs : List (String × List String × List String))
    (acc : List (String × String × String) × Nat × List (String × Nat)) :
    (docs.foldl combineDoc acc).2.2 = acc.2.2 ++ docs.map (fun d => (d.1, perDocCount d))
    ∧ (docs.foldl combineDoc acc).2.1 = acc.2.1 + (docs.map perDocCount).sum
    ∧ (docs.foldl combineDoc acc).1.length = acc.1.length + (docs.map perDocCount).sum := by
  induction docs generalizing acc with
  | nil => simp
  | cons d ds ih =>
    obtain ⟨h₁, h₂, h₃⟩ := ih (combineDoc acc d)
    refine ⟨?_, ?_, ?_⟩
    · rw [List.foldl_cons, h₁]
      simp [combineDoc, perDocCount, List.append_assoc]
    · rw [List.foldl_cons, h₂]
      simp [combineDoc, perDocCount]
      omega
    · rw [List.foldl_cons, h₃]
      simp [combineDoc, perDocCount]
      omega

/-- Claim C6: for every batch of matched question/answer file pairs, the
Aggregator's per-document statistics record exactly
`min(|questions|, |answers|)` for each document (truncation, never an
error value), and the reported total — which is also the length of the
combined record list — is the sum of the per-document counts. -/
theorem claim_C6 (docs : List (String × List String × List String)) :
    (combine_question_answer_files docs).2.2
      = docs.map (fun d => (d.1, perDocCount d))
    ∧ (combine_question_answer_files docs).2.1
      = (((combine_question_answer_files docs).2.2).map (·.2)).sum
    ∧ (combine_question_answer_files docs).1.length
      = (combine_question_answer_files docs).2.1 := by
  obtain ⟨h₁, h₂, h₃⟩ := combine_fold docs ([], 0, [])
  rw [combine_question_answer_files]
  refine ⟨by simpa using h₁, ?_, by rw [h₃, h₂]; simp⟩
  rw [h₂, h₁]
  simp only [List.nil_append, List.map_map, Nat.zero_add]
  show (docs.map perDocCount).sum
      = (docs.map ((fun x => x.2) ∘ fun d => (d.1, perDocCount d))).sum
  have hmap : (docs.map ((fun (x : String × Nat) => x.2) ∘ fun d => (d.1, perDocCount d)))
      = docs.map perDocCount := by
    apply List.map_congr_left
    intro a _
    rfl
  rw [hmap]

/-! ## Claim C4: variant E continuation rule (trailing tseg test) -/

/-- Claim C4: under variant E (`qa_6.py`), a non-empty Plain line (one
with no bracketed-numeral marker) processed while a record is open is
appended to the question text if and only if the accumulated question
text currently ends with the tseg glyph; otherwise it is appended to the
answer buffer.  The decision reads only the parser state, the accumulated
question text and the line — `stepE` takes nothing else. -/
theorem claim_C4 (st : StateE) (line : String)
    (hstrip : pyStrip line = line) (hne : line ≠ "")
    (hplain : findBracketNum line.data = none)
    (hopen : st.current_question ≠ "") :
    (((stepE st line).current_question = st.current_question ++ " " ++ line ∧
        (stepE st line).current_answer = st.current_answer)
      ↔ endsWithTseg st.current_question = true)
    ∧ (endsWithTseg st.current_question = false →
        (stepE st line).current_question = st.current_question ∧
        (stepE st line).current_answer = st.current_answer ++ [line]) := by
  have hred : stepE st line =
      if st.current_question ≠ "" ∧ endsWithTseg st.current_question then
        { st with current_question := st.current_question ++ " " ++ line }
      else
        { st with current_answer := st.current_answer ++ [line] } := by
    rw [stepE]
    simp only [hstrip, hplain]
    rw [if_neg hne]
  cases htseg : endsWithTseg st.current_question with
  | true =>
    rw [hred, if_pos ⟨hopen, by rw [htseg]⟩]
    exact ⟨⟨fun _ => rfl, fun _ => ⟨rfl, rfl⟩⟩, fun hfalse => by simp at hfalse⟩
  | false =>
    rw [hred, if_neg (by rw [htseg]; exact fun h => by simpa using h.2)]
    refine ⟨⟨fun h => ?_, fun h => by simp at h⟩, fun _ => ⟨rfl, rfl⟩⟩
    have : st.current_answer ++ [line] = st.current_answer := h.2
    simpa using congrArg List.length this

theorem claim_C4_witness :
    (((stepE ⟨[], [], "༡༽ ཀ་", [], 1⟩ "ཁ").current_question = "༡༽ ཀ་" ++ " " ++ "ཁ" ∧
        (stepE ⟨[], [], "༡༽ ཀ་", [], 1⟩ "ཁ").current_answer = [])
      ↔ endsWithTseg "༡༽ ཀ་" = true) :=
  (claim_C4 ⟨[], [], "༡༽ ཀ་", [], 1⟩ "ཁ" (by decide) (by decide) (by decide) (by decide)).1

/-! ## Claim C5: variant D position-based attachment -/

/-- Claim C5: under variant D (`qa_5.py`), processing a marker line
leaves the question buffer holding exactly that marker (length 1), so the
very next non-empty Plain line is appended to the question buffer, and a
Plain line arriving while the question buffer is longer is appended to
the answer buffer: the decision is the position test
`len(current_question) == 1`, not the line content. -/
theorem claim_C5 (st : StateD) (line : String)
    (hstrip : pyStrip line = line) (hne : line ≠ "") :
    (isAlphabetMarker line = true → (stepD st line).current_question = [line])
    ∧ (isAlphabetMarker line = false → st.current_question ≠ [] →
        (((stepD st line).current_question = st.current_question ++ [line] ∧
            (stepD st line).current_answer = st.current_answer)
          ↔ st.current_question.length = 1)
        ∧ (st.current_question.length ≠ 1 →
            (stepD st line).current_question = st.current_question ∧
            (stepD st line).current_answer = st.current_answer ++ [line])) := by
  constructor
  · intro hmark
    rw [stepD]
    simp only [hstrip]
    rw [if_neg hne, if_pos hmark]
    by_cases hreset : st.current_question ≠ [] ∨ st.current_answer ≠ []
    · rw [if_pos hreset]
      rfl
    · rw [if_neg hreset]
      push_neg at hreset
      rw [hreset.1]
      rfl
  · intro hmark hopen
    have hred : stepD st line =
        if st.current_question.length = 1 then
          { st with current_question := st.current_question ++ [line] }
        else
          { st with current_answer := st.current_answer ++ [line] } := by
      rw [stepD]
      simp only [hstrip]
      rw [if_neg hne, if_neg (by rw [hmark]; exact fun h => by simp at h),
        if_pos hopen]
    by_cases hlen : st.current_question.length = 1
    · rw [hred, if_pos hlen]
      exact ⟨⟨fun _ => hlen, fun _ => ⟨rfl, rfl⟩⟩, fun hne2 => absurd hlen hne2⟩
    · rw [hred, if_neg hlen]
      refine ⟨⟨fun h => ?_, fun h => absurd h hlen⟩, fun _ => ⟨rfl, rfl⟩⟩
      have : st.current_question = st.current_question ++ [line] := h.1
      have := congrArg List.length this
      simp at this

theorem claim_C5_witness :
    (stepD ⟨[], [], [], [], 1⟩ "ཀ").current_question = ["ཀ"] ∧
    ((stepD ⟨[], [], ["ཀ"], [], 1⟩ "ས་ཁང་").current_question = ["ཀ"] ++ ["ས་ཁང་"] ∧
      (stepD ⟨[], [], ["ཀ"], [], 1⟩ "ས་ཁང་").current_answer = []) :=
  ⟨(claim_C5 ⟨[], [], [], [], 1⟩ "ཀ" (by decide) (by decide)).1 (by decide),
   ((claim_C5 ⟨[], [], ["ཀ"], [], 1⟩ "ས་ཁང་" (by decide) (by decide)).2
      (by decide) (by decide)).1.mpr (by decide)⟩

/-! ## Claim C1: pair counts per QuestionStart lines -/

/-- 1 when the variant-A parser holds an open record, else 0. -/
def oBitA (st : StateA) : Nat :=
  if st.current_question.isSome then 1 else 0

lemma countTibNumLines_cons (p : String) (ps : List String) :
    countTibNumLines (p :: ps)
      = (if startsWithTibDigit (pyStrip p) then 1 else 0) + countTibNumLines ps := by
  rw [countTibNumLines, countTibNumLines, List.countP_cons]
  omega

lemma startsWithTibDigit_empty : startsWithTibDigit "" = false := rfl

lemma stepA_count (st : StateA) (p : String) :
    (stepA st p).parsed_questions.length + oBitA (stepA st p)
      = st.parsed_questions.length + oBitA st
        + (if startsWithTibDigit (pyStrip p) then 1 else 0) := by
  obtain ⟨pq, pa, cq, ca, cnt⟩ := st
  by_cases h1 : pyStrip p = ""
  · simp [stepA, h1, oBitA, startsWithTibDigit_empty]
  · by_cases h2 : startsWithTibDigit (pyStrip p) = true
    · cases cq with
      | none => simp [stepA, h1, h2, oBitA]
      | some q => simp [stepA, h1, h2, oBitA]
    · have h2f : startsWithTibDigit (pyStrip p) = false := by
        cases h : startsWithTibDigit (pyStrip p)
        · rfl
        · exact absurd h h2
      simp [stepA, h1, h2f, oBitA]

lemma foldA_count :
    ∀ (ps : List String) (st : StateA),
      (ps.foldl stepA st).parsed_questions.length + oBitA (ps.foldl stepA st)
        = st.parsed_questions.length + oBitA st + countTibNumLines ps := by
  intro ps
  induction ps with
  | nil => intro st; simp [countTibNumLines]
  | cons p ps ih =>
    intro st
    rw [List.foldl_cons, ih (stepA st p), stepA_count, countTibNumLines_cons]
    omega

lemma stepA_ans (st : StateA) (p : String) :
    (stepA st p).parsed_answers.length + st.parsed_questions.length
      = (stepA st p).parsed_questions.length + st.parsed_answers.length := by
  obtain ⟨pq, pa, cq, ca, cnt⟩ := st
  by_cases h1 : pyStrip p = ""
  · simp [stepA, h1]; omega
  · by_cases h2 : startsWithTibDigit (pyStrip p) = true
    · cases cq with
      | none => simp [stepA, h1, h2]; omega
      | some q => simp [stepA, h1, h2]; omega
    · have h2f : startsWithTibDigit (pyStrip p) = false := by
        cases h : startsWithTibDigit (pyStrip p)
        · rfl
        · exact absurd h h2
      simp [stepA, h1, h2f]; omega

lemma foldA_ans :
    ∀ (ps : List String) (st : StateA),
      (ps.foldl stepA st).parsed_answers.length + st.parsed_questions.length
        = (ps.foldl stepA st).parsed_questions.length + st.parsed_answers.length := by
  intro ps
  induction ps with
  | nil => intro st; simp [Nat.add_comm]
  | cons p ps ih =>
    intro st
    rw [List.foldl_cons]
    have h₁ := ih (stepA st p)
    have h₂ := stepA_ans st p
    omega

lemma emitB_qlen (st : StateB) :
    (emitB st).parsed_questions.length ≤ st.parsed_questions.length + 1 := by
  rw [emitB]
  by_cases h : st.current_question ≠ "" ∧ st.current_answer ≠ []
  · rw [if_pos h]; simp
  · rw [if_neg h]; omega

lemma emitB_ans (st : StateB) :
    (emitB st).parsed_answers.length + st.parsed_questions.length
      = (emitB st).parsed_questions.length + st.parsed_answers.length := by
  rw [emitB]
  by_cases h : st.current_question ≠ "" ∧ st.current_answer ≠ []
  · rw [if_pos h]
    dsimp only
    simp only [List.length_append, List.length_singleton]
    omega
  · rw [if_neg h]; omega

lemma boolNotTrue {b : Bool} (h : ¬b = true) : b = false := by
  cases b
  · rfl
  · exact absurd rfl h

lemma stepB_question (st : StateB) (p : String) (h1 : ¬pyStrip p = "")
    (h2 : startsWithTibDigit (pyStrip p) = true) :
    stepB st p = { emitB st with current_question := pyStrip p, is_answer := false } := by
  simp only [stepB]
  rw [if_neg h1, if_pos h2]

lemma stepB_qlen (st : StateB) (p : String) :
    (stepB st p).parsed_questions.length
      ≤ st.parsed_questions.length + (if startsWithTibDigit (pyStrip p) then 1 else 0) := by
  obtain ⟨pq, pa, cq, ca, ia, cnt⟩ := st
  by_cases h1 : pyStrip p = ""
  · simp [stepB, h1, startsWithTibDigit_empty]
  · by_cases h2 : startsWithTibDigit (pyStrip p) = true
    · rw [stepB_question ⟨pq, pa, cq, ca, ia, cnt⟩ p h1 h2, if_pos h2]
      exact emitB_qlen ⟨pq, pa, cq, ca, ia, cnt⟩
    · have h2f := boolNotTrue h2
      by_cases h3 : pyStartsWith (pyStrip p) answerMarker3 = true
      · simp [stepB, h1, h2f, h3]
      · have h3f := boolNotTrue h3
        by_cases h4 : ia = true
        · simp [stepB, h1, h2f, h3f, h4]
        · have h4f := boolNotTrue h4
          simp [stepB, h1, h2f, h3f, h4f]

lemma stepB_ans (st : StateB) (p : String) :
    (stepB st p).parsed_answers.length + st.parsed_questions.length
      = (stepB st p).parsed_questions.length + st.parsed_answers.length := by
  obtain ⟨pq, pa, cq, ca, ia, cnt⟩ := st
  by_cases h1 : pyStrip p = ""
  · simp [stepB, h1]; omega
  · by_cases h2 : startsWithTibDigit (pyStrip p) = true
    · rw [stepB_question ⟨pq, pa, cq, ca, ia, cnt⟩ p h1 h2]
      exact emitB_ans ⟨pq, pa, cq, ca, ia, cnt⟩
    · have h2f := boolNotTrue h2
      by_cases h3 : pyStartsWith (pyStrip p) answerMarker3 = true
      · simp [stepB, h1, h2f, h3]; omega
      · have h3f := boolNotTrue h3
        by_cases h4 : ia = true
        · simp [stepB, h1, h2f, h3f, h4]; omega
        · have h4f := boolNotTrue h4
          simp [stepB, h1, h2f, h3f, h4f]; omega

lemma foldB_qlen :
    ∀ (ps : List String) (st : StateB),
      (ps.foldl stepB st).parsed_questions.length
        ≤ st.parsed_questions.length + countTibNumLines ps := by
  intro ps
  induction ps with
  | nil => intro st; simp [countTibNumLines]
  | cons p ps ih =>
    intro st
    rw [List.foldl_cons, countTibNumLines_cons]
    have h₁ := ih (stepB st p)
    have h₂ := stepB_qlen st p
    omega

lemma foldB_ans :
    ∀ (ps : List String) (st : StateB),
      (ps.foldl stepB st).parsed_answers.length + st.parsed_questions.length
        = (ps.foldl stepB st).parsed_questions.length + st.parsed_answers.length := by
  intro ps
  induction ps with
  | nil => intro st; simp [Nat.add_comm]
  | cons p ps ih =>
    intro st
    rw [List.foldl_cons]
    have h₁ := ih (stepB st p)
    have h₂ := stepB_ans st p
    omega

/-- Claim C1, corrected.  Variant A (`qa_2.py`) emits exactly `k` QAPairs
for `k` QuestionStart lines, on both output streams.  Variant B
(`qa_3.py`) does not obey the `k` / `k-1` rule: a record whose answer
buffer is empty when it closes is dropped wherever it occurs, so only the
bound `k + 1` and the equality of the two output lengths hold in
general (see `claim_C1_counterexample` for a stream with `k = 3` and only
one emitted pair). -/
theorem claim_C1 :
    (∀ ps, (parse_docx_2 ps).1.length = countTibNumLines ps
      ∧ (parse_docx_2 ps).2.length = countTibNumLines ps)
    ∧ (∀ ps, (parse_docx_3 ps).1.length ≤ countTibNumLines ps + 1
      ∧ (parse_docx_3 ps).2.length = (parse_docx_3 ps).1.length) := by
  constructor
  · intro ps
    have hc := foldA_count ps initA
    have ha := foldA_ans ps initA
    have hq0 : initA.parsed_questions.length = 0 := rfl
    have ha0 : initA.parsed_answers.length = 0 := rfl
    have hb0 : oBitA initA = 0 := rfl
    rw [parse_docx_2]
    cases hcq : (ps.foldl stepA initA).current_question with
    | none =>
      have hbit : oBitA (ps.foldl stepA initA) = 0 := by
        rw [oBitA, hcq]; rfl
      constructor
      · show (ps.foldl stepA initA).parsed_questions.length = countTibNumLines ps
        omega
      · show (ps.foldl stepA initA).parsed_answers.length = countTibNumLines ps
        omega
    | some q =>
      have hbit : oBitA (ps.foldl stepA initA) = 1 := by
        rw [oBitA, hcq]; rfl
      constructor
      · show ((ps.foldl stepA initA).parsed_questions
            ++ [(process_current_qa_2 q (ps.foldl stepA initA).current_answer
                  (ps.foldl stepA initA).question_counter).1]).length = countTibNumLines ps
        rw [List.length_append]
        simp only [List.length_singleton]
        omega
      · show ((ps.foldl stepA initA).parsed_answers
            ++ [(process_current_qa_2 q (ps.foldl stepA initA).current_answer
                  (ps.foldl stepA initA).question_counter).2]).length = countTibNumLines ps
        rw [List.length_append]
        simp only [List.length_singleton]
        omega
  · intro ps
    have hq := foldB_qlen ps initB
    have ha := foldB_ans ps initB
    have hemq := emitB_qlen (ps.foldl stepB initB)
    have hema := emitB_ans (ps.foldl stepB initB)
    have hq0 : initB.parsed_questions.length = 0 := rfl
    have ha0 : initB.parsed_answers.length = 0 := rfl
    constructor
    · show (emitB (ps.foldl stepB initB)).parsed_questions.length ≤ countTibNumLines ps + 1
      omega
    · show (emitB (ps.foldl stepB initB)).parsed_answers.length
        = (emitB (ps.foldl stepB initB)).parsed_questions.length
      omega

/-- Claim C1 as stated is false on variant B: this stream has three
QuestionStart lines yet `qa_3.py` emits a single pair (the first two
records close with an empty answer buffer and are dropped), which is
neither `k` nor `k - 1`. -/
theorem claim_C1_counterexample :
    countTibNumLines ["༡ ལུང་པ།", "༢ གྲོང་།", "༣ མཚོ།", "ལན། ལན་ཞིག"] = 3
    ∧ (parse_docx_3 ["༡ ལུང་པ།", "༢ གྲོང་།", "༣ མཚོ།", "ལན། ལན་ཞིག"]).1.length = 1
    ∧ ¬((parse_docx_3 ["༡ ལུང་པ།", "༢ གྲོང་།", "༣ མཚོ།", "ལན། ལན་ཞིག"]).1.length = 3
        ∨ (parse_docx_3 ["༡ ལུང་པ།", "༢ གྲོང་།", "༣ མཚོ།", "ལན། ལན་ཞིག"]).1.length = 3 - 1) := by
  refine ⟨by decide, by decide, ?_⟩
  intro h
  rcases h with h | h <;> revert h <;> decide

/-! ## Claim C2: indices are the contiguous run 1..k in emission order -/

/-- A list whose `i`-th entry is the canonical index `i + 1` (encoded in
Tibetan digits, with the `༽ ` separator of the sources) in front of some
payload text: the shape every emitted entry stream must have when its
indices form the contiguous run `1..k` in emission order. -/
def renderIdx (rests : List String) : List String :=
  rests.enum.map fun p => int_to_tibetan (p.1 + 1) ++ "༽ " ++ p.2

lemma enumFrom_append_one (n : Nat) (rs : List String) (x : String) :
    (rs ++ [x]).enumFrom n = rs.enumFrom n ++ [(n + rs.length, x)] := by
  induction rs generalizing n with
  | nil => simp [List.enumFrom]
  | cons r rest ih =>
    show (n, r) :: (rest ++ [x]).enumFrom (n + 1)
        = ((n, r) :: rest.enumFrom (n + 1)) ++ [(n + (rest.length + 1), x)]
    rw [List.cons_append, ih (n + 1)]
    have harith : n + 1 + rest.length = n + (rest.length + 1) := by omega
    rw [harith]

lemma renderIdx_nil : renderIdx [] = [] := rfl

lemma renderIdx_length (rs : List String) : (renderIdx rs).length = rs.length := by
  simp [renderIdx]

lemma renderIdx_append (rs : List String) (x : String) :
    renderIdx (rs ++ [x])
      = renderIdx rs ++ [int_to_tibetan (rs.length + 1) ++ "༽ " ++ x] := by
  rw [renderIdx, renderIdx]
  show ((rs ++ [x]).enumFrom 0).map _ = (rs.enumFrom 0).map _ ++ _
  rw [enumFrom_append_one, List.map_append]
  simp

/-- The index bookkeeping invariant of `parse_docx` of `qa_2.py`. -/
def RenderInvA (st : StateA) : Prop :=
  (∃ q, st.parsed_questions = renderIdx q)
  ∧ (∃ a, st.parsed_answers = renderIdx a)
  ∧ st.parsed_answers.length = st.parsed_questions.length
  ∧ st.question_counter = st.parsed_questions.length + 1

lemma stepA_render (st : StateA) (p : String) (h : RenderInvA st) :
    RenderInvA (stepA st p) := by
  obtain ⟨⟨qrs, hq⟩, ⟨ars, ha⟩, hlen, hcnt⟩ := h
  obtain ⟨pq, pa, cq, ca, cnt⟩ := st
  simp only at hq ha hlen hcnt
  by_cases h1 : pyStrip p = ""
  · simp only [stepA, h1, if_pos rfl]
    exact ⟨⟨qrs, hq⟩, ⟨ars, ha⟩, hlen, hcnt⟩
  · by_cases h2 : startsWithTibDigit (pyStrip p) = true
    · cases cq with
      | none =>
        simp only [stepA, if_neg h1, h2, ite_true]
        exact ⟨⟨qrs, hq⟩, ⟨ars, ha⟩, hlen, hcnt⟩
      | some q =>
        simp only [stepA, if_neg h1, h2, ite_true]
        subst hq ha hcnt
        refine ⟨⟨qrs ++ [clean_question_text_2 q], ?_⟩,
          ⟨ars ++ [pyJoin "\n" (ca.map stripAnswerMarker2)], ?_⟩, ?_, ?_⟩
        · rw [renderIdx_append, renderIdx_length]
          rfl
        · rw [renderIdx_append, renderIdx_length]
          have : ars.length = qrs.length := by
            have := hlen
            rwa [renderIdx_length, renderIdx_length] at this
          rw [this]
          rfl
        · simp
          omega
        · simp
    · have h2f := boolNotTrue h2
      simp only [stepA, if_neg h1, h2f, Bool.false_eq_true, ite_false]
      exact ⟨⟨qrs, hq⟩, ⟨ars, ha⟩, hlen, hcnt⟩

lemma foldA_render (ps : List String) : RenderInvA (ps.foldl stepA initA) := by
  have hinit : RenderInvA initA := ⟨⟨[], rfl⟩, ⟨[], rfl⟩, rfl, rfl⟩
  induction ps using List.reverseRecOn with
  | nil => exact hinit
  | append_singleton qs q ih =>
    rw [List.foldl_append]
    exact stepA_render _ _ ih

lemma enumFrom_map (f : String → String) :
    ∀ (l : List String) (n : Nat),
      (l.map f).enumFrom n = (l.enumFrom n).map fun p => (p.1, f p.2) := by
  intro l
  induction l with
  | nil => intro n; rfl
  | cons x xs ih =>
    intro n
    simp only [List.map_cons, List.enumFrom, ih (n + 1)]

/-- Claim C2: in every emitted QAPair stream, the indices attached to the
entries are exactly the contiguous run `1..k` in emission order — each
output list is `renderIdx` of some payload list, so the `i`-th entry is
prefixed by the encoding of `i + 1` regardless of any numeral embedded in
the source marker text.  This holds for both streams of `parse_docx` of
`qa_2.py` and for the entries `save_to_files` of `qa_7.py` writes. -/
theorem claim_C2 :
    (∀ ps, ∃ q a, (parse_docx_2 ps).1 = renderIdx q ∧ (parse_docx_2 ps).2 = renderIdx a)
    ∧ ∀ items, save_to_files_entries items = renderIdx (items.map (· ++ "\n\n")) := by
  constructor
  · intro ps
    obtain ⟨⟨qrs, hq⟩, ⟨ars, ha⟩, hlen, hcnt⟩ := foldA_render ps
    rw [parse_docx_2]
    cases hcq : (ps.foldl stepA initA).current_question with
    | none => exact ⟨qrs, ars, hq, ha⟩
    | some q =>
      have hqlen : (ps.foldl stepA initA).parsed_questions.length = qrs.length := by
        rw [hq, renderIdx_length]
      have halen : (ps.foldl stepA initA).parsed_answers.length = ars.length := by
        rw [ha, renderIdx_length]
      refine ⟨qrs ++ [clean_question_text_2 q],
        ars ++ [pyJoin "\n" ((ps.foldl stepA initA).current_answer.map stripAnswerMarker2)],
        ?_, ?_⟩
      · show (ps.foldl stepA initA).parsed_questions
            ++ [(process_current_qa_2 q (ps.foldl stepA initA).current_answer
                  (ps.foldl stepA initA).question_counter).1] = _
        have hpay : (process_current_qa_2 q (ps.foldl stepA initA).current_answer
              (ps.foldl stepA initA).question_counter).1
            = int_to_tibetan (qrs.length + 1) ++ "༽ " ++ clean_question_text_2 q := by
          show int_to_tibetan ((ps.foldl stepA initA).question_counter) ++ "༽ "
              ++ clean_question_text_2 q = _
          rw [hcnt, hqlen]
        rw [renderIdx_append, hq, hpay]
      · show (ps.foldl stepA initA).parsed_answers
            ++ [(process_current_qa_2 q (ps.foldl stepA initA).current_answer
                  (ps.foldl stepA initA).question_counter).2] = _
        have hpay : (process_current_qa_2 q (ps.foldl stepA initA).current_answer
              (ps.foldl stepA initA).question_counter).2
            = int_to_tibetan (ars.length + 1) ++ "༽ "
              ++ pyJoin "\n" ((ps.foldl stepA initA).current_answer.map stripAnswerMarker2) := by
          show int_to_tibetan ((ps.foldl stepA initA).question_counter) ++ "༽ "
              ++ pyJoin "\n" ((ps.foldl stepA initA).current_answer.map stripAnswerMarker2) = _
          have hqa : ars.length = qrs.length := by omega
          rw [hcnt, hqlen, hqa]
        rw [renderIdx_append, ha, hpay]
  · intro items
    rw [save_to_files_entries, renderIdx]
    show (items.enumFrom 0).map _ = ((items.map _).enumFrom 0).map _
    rw [enumFrom_map, List.map_map]
    apply List.map_congr_left
    intro p _
    show int_to_tibetan (p.1 + 1) ++ "༽ " ++ p.2 ++ "\n\n"
        = int_to_tibetan (p.1 + 1) ++ "༽ " ++ (p.2 ++ "\n\n")
    rw [String.append_assoc]

/-! ## Claim C3: treatment of a trailing open record with empty answer -/

/-- Claim C3, corrected.  A trailing open record with an empty answer
buffer is still emitted — with the answer entry reduced to the bare index
prefix — by variant A (`qa_2.py`) and by variant D (`qa_5.py`, whose
terminal guard only asks that EITHER buffer be non-empty); it is variant
B (`qa_3.py`) that refuses to emit unless both the question and the
answer buffer are non-empty.  The both-buffers rule the claim attributes
to variant D actually belongs to variant B. -/
theorem claim_C3 (ps : List String) :
    (∀ q, (ps.foldl stepA initA).current_question = some q →
      (ps.foldl stepA initA).current_answer = [] →
      (parse_docx_2 ps).2 = (ps.foldl stepA initA).parsed_answers ++
        [int_to_tibetan (ps.foldl stepA initA).question_counter ++ "༽ "])
    ∧ ((ps.foldl stepB initB).current_question ≠ "" →
      (ps.foldl stepB initB).current_answer = [] →
      parse_docx_3 ps =
        ((ps.foldl stepB initB).parsed_questions, (ps.foldl stepB initB).parsed_answers))
    ∧ ((ps.foldl stepD initD).current_question ≠ [] →
      (ps.foldl stepD initD).current_answer = [] →
      (parse_docx_5 ps).2 = (ps.foldl stepD initD).parsed_answers ++
        [Nat.repr (ps.foldl stepD initD).question_counter ++ "༽ "]) := by
  refine ⟨?_, ?_, ?_⟩
  · intro q hq hca
    rw [parse_docx_2]
    rw [hq]
    show (ps.foldl stepA initA).parsed_answers
        ++ [(process_current_qa_2 q (ps.foldl stepA initA).current_answer
              (ps.foldl stepA initA).question_counter).2] = _
    rw [hca]
    show (ps.foldl stepA initA).parsed_answers
        ++ [int_to_tibetan (ps.foldl stepA initA).question_counter ++ "༽ " ++ pyJoin "\n" []]
        = _
    have hj : pyJoin "\n" ([] : List String) = "" := rfl
    rw [hj]
    simp
  · intro hcq hca
    rw [parse_docx_3, emitB, if_neg fun h => h.2 hca]
  · intro hcq hca
    rw [parse_docx_5, if_pos (Or.inl hcq)]
    show (ps.foldl stepD initD).parsed_answers
        ++ [(process_current_qa_5 (ps.foldl stepD initD).current_question
              (ps.foldl stepD initD).current_answer
              (ps.foldl stepD initD).question_counter).2] = _
    rw [hca]
    show (ps.foldl stepD initD).parsed_answers
        ++ [Nat.repr (ps.foldl stepD initD).question_counter ++ "༽ "
            ++ pyStrip (pyJoin " " [])] = _
    have hs : pyStrip (pyJoin " " ([] : List String)) = "" := rfl
    rw [hs]
    simp

/-- Claim C3 as stated is false at these inputs: variant B (`qa_3.py`)
emits nothing for a stream whose only record closes with an empty answer
buffer (the claim requires one pair with an empty answer field), while
variant D (`qa_5.py`) emits one pair for a lone marker line even though
its answer buffer — and even the question body — is empty (the claim
requires variant D to emit only when both buffers are non-empty). -/
theorem claim_C3_counterexample :
    (parse_docx_3 ["༡ ལུང་པ།"]).1.length = 0
    ∧ (parse_docx_5 ["ཀ"]).1.length = 1
    ∧ (parse_docx_5 ["ཀ"]).2 = ["1༽ "] := by
  refine ⟨by decide, by decide, by decide⟩

theorem claim_C3_witness :
    (parse_docx_2 ["༡ ལུང་པ།"]).2 = [] ++ [int_to_tibetan 1 ++ "༽ "]
    ∧ parse_docx_3 ["༡ ལུང་པ།"] = ([], [])
    ∧ (parse_docx_5 ["ཀ"]).2 = [] ++ [Nat.repr 1 ++ "༽ "] :=
  ⟨(claim_C3 ["༡ ལུང་པ།"]).1 "༡ ལུང་པ།" (by decide) (by decide),
   (claim_C3 ["༡ ལུང་པ།"]).2.1 (by decide) (by decide),
   (claim_C3 ["ཀ"]).2.2 (by decide) (by decide)⟩

/-! ## Claim C8: the normalizer is a projection -/

/-- No whitespace character at the head of the list. -/
def headNotSpace (l : List Char) : Prop :=
  ∀ c, l.head? = some c → pyIsSpace c = false

/-- No whitespace character at the end of the list. -/
def lastNotSpace (l : List Char) : Prop :=
  ∀ c, l.getLast? = some c → pyIsSpace c = false

/-- Every whitespace character is a single `' '` not followed by further
whitespace: the shape `collapseWsAux` guarantees. -/
def wsCollapsed : List Char → Prop
  | [] => True
  | c :: cs => (pyIsSpace c = true → c = ' ' ∧ headNotSpace cs) ∧ wsCollapsed cs

lemma getLast?_cons_ne (c : Char) (cs : List Char) (h : cs ≠ []) :
    (c :: cs).getLast? = cs.getLast? := by
  cases cs with
  | nil => exact absurd rfl h
  | cons d ds => simp [List.getLast?_cons_cons]

lemma lastNotSpace_of_cons (c : Char) (cs : List Char) (h : lastNotSpace (c :: cs))
    (hne : cs ≠ []) : lastNotSpace cs := by
  intro e he
  exact h e (by rw [getLast?_cons_ne c cs hne, he])

lemma collapseWsAux_true_head (l : List Char) :
    headNotSpace (collapseWsAux true l) := by
  induction l with
  | nil => intro c hc; simp [collapseWsAux] at hc
  | cons c cs ih =>
    by_cases hsp : pyIsSpace c = true
    · rw [collapseWsAux, if_pos hsp, if_pos rfl]
      exact ih
    · have hns := boolNotTrue hsp
      rw [collapseWsAux, if_neg (by rw [hns]; exact fun h => by simp at h)]
      intro e he
      rw [List.head?_cons, Option.some_inj] at he
      rw [← he, hns]

lemma collapseWsAux_wsCollapsed (l : List Char) : ∀ b, wsCollapsed (collapseWsAux b l) := by
  induction l with
  | nil => intro b; exact trivial
  | cons c cs ih =>
    intro b
    by_cases hsp : pyIsSpace c = true
    · cases b with
      | true =>
        rw [collapseWsAux, if_pos hsp, if_pos rfl]
        exact ih true
      | false =>
        rw [collapseWsAux, if_pos hsp, if_neg (by simp)]
        exact ⟨fun _ => ⟨rfl, collapseWsAux_true_head cs⟩, ih true⟩
    · have hns := boolNotTrue hsp
      rw [collapseWsAux, if_neg (by rw [hns]; exact fun h => by simp at h)]
      exact ⟨fun h => absurd h hsp, ih false⟩

lemma collapseWsAux_id (l : List Char) (h : wsCollapsed l) :
    collapseWsAux false l = l ∧ (headNotSpace l → collapseWsAux true l = l) := by
  induction l with
  | nil => exact ⟨rfl, fun _ => rfl⟩
  | cons c cs ih =>
    obtain ⟨hc, hcs⟩ := h
    by_cases hsp : pyIsSpace c = true
    · obtain ⟨hcsp, hhead⟩ := hc hsp
      constructor
      · rw [collapseWsAux, if_pos hsp, if_neg (by simp), (ih hcs).2 hhead, hcsp]
      · intro hh
        have := hh c rfl
        rw [this] at hsp
        exact absurd hsp (by simp)
    · have hns := boolNotTrue hsp
      have hfalse := (ih hcs).1
      constructor
      · rw [collapseWsAux, if_neg (by rw [hns]; exact fun h => by simp at h), hfalse]
      · intro _
        rw [collapseWsAux, if_neg (by rw [hns]; exact fun h => by simp at h), hfalse]

lemma collapseWsAux_idem (l : List Char) :
    collapseWsAux false (collapseWsAux false l) = collapseWsAux false l :=
  (collapseWsAux_id _ (collapseWsAux_wsCollapsed l false)).1

lemma collapseWsAux_false_ne_nil (l : List Char) (h : l ≠ []) :
    collapseWsAux false l ≠ [] := by
  cases l with
  | nil => exact absurd rfl h
  | cons c cs =>
    by_cases hsp : pyIsSpace c = true
    · rw [collapseWsAux, if_pos hsp, if_neg (by simp)]
      exact List.cons_ne_nil _ _
    · have hns := boolNotTrue hsp
      rw [collapseWsAux, if_neg (by rw [hns]; exact fun h => by simp at h)]
      exact List.cons_ne_nil _ _

lemma collapseWsAux_true_ne_nil (l : List Char) (h : l ≠ []) (hl : lastNotSpace l) :
    collapseWsAux true l ≠ [] := by
  induction l with
  | nil => exact absurd rfl h
  | cons c cs ih =>
    by_cases hsp : pyIsSpace c = true
    · have hcs : cs ≠ [] := by
        intro hnil
        subst hnil
        exact absurd hsp (by rw [hl c rfl]; simp)
      rw [collapseWsAux, if_pos hsp, if_pos rfl]
      exact ih hcs (lastNotSpace_of_cons c cs hl hcs)
    · have hns := boolNotTrue hsp
      rw [collapseWsAux, if_neg (by rw [hns]; exact fun h => by simp at h)]
      exact List.cons_ne_nil _ _

lemma collapseWsAux_last (l : List Char) (hl : lastNotSpace l) :
    ∀ b, lastNotSpace (collapseWsAux b l) := by
  induction l with
  | nil => intro b e he; simp [collapseWsAux] at he
  | cons c cs ih =>
    intro b
    cases hcs : cs with
    | nil =>
      subst hcs
      have hns : pyIsSpace c = false := hl c rfl
      rw [collapseWsAux, if_neg (by rw [hns]; exact fun h => by simp at h)]
      intro e he
      have : collapseWsAux false ([] : List Char) = [] := rfl
      rw [this] at he
      simp at he
      rw [← he, hns]
    | cons d ds =>
      subst hcs
      have hcs_ne : (d :: ds) ≠ [] := List.cons_ne_nil _ _
      have hlcs : lastNotSpace (d :: ds) := lastNotSpace_of_cons c _ hl hcs_ne
      by_cases hsp : pyIsSpace c = true
      · cases b with
        | true =>
          rw [collapseWsAux, if_pos hsp, if_pos rfl]
          exact ih hlcs true
        | false =>
          rw [collapseWsAux, if_pos hsp, if_neg (by simp)]
          have hr := collapseWsAux_true_ne_nil (d :: ds) hcs_ne hlcs
          intro e he
          rw [getLast?_cons_ne _ _ hr] at he
          exact ih hlcs true e he
      · have hns := boolNotTrue hsp
        rw [collapseWsAux, if_neg (by rw [hns]; exact fun h => by simp at h)]
        have hr := collapseWsAux_false_ne_nil (d :: ds) hcs_ne
        intro e he
        rw [getLast?_cons_ne _ _ hr] at he
        exact ih hlcs false e he

lemma collapseWsAux_head (l : List Char) (hh : headNotSpace l) :
    headNotSpace (collapseWsAux false l) := by
  cases l with
  | nil => intro c hc; simp [collapseWsAux] at hc
  | cons c cs =>
    have hns : pyIsSpace c = false := hh c rfl
    rw [collapseWsAux, if_neg (by rw [hns]; exact fun h => by simp at h)]
    intro e he
    rw [List.head?_cons, Option.some_inj] at he
    rw [← he, hns]

lemma dropWhile_head_false (l : List Char) :
    headNotSpace (l.dropWhile pyIsSpace) := by
  induction l with
  | nil => intro c hc; simp at hc
  | cons a as ih =>
    by_cases hsp : pyIsSpace a = true
    · rw [List.dropWhile_cons, if_pos hsp]
      exact ih
    · have hns := boolNotTrue hsp
      rw [List.dropWhile_cons, if_neg (by rw [hns]; exact fun h => by simp at h)]
      intro e he
      rw [List.head?_cons, Option.some_inj] at he
      rw [← he, hns]

lemma dropWhile_of_headNotSpace (l : List Char) (h : headNotSpace l) :
    l.dropWhile pyIsSpace = l := by
  cases l with
  | nil => rfl
  | cons c cs =>
    have hns : pyIsSpace c = false := h c rfl
    rw [List.dropWhile_cons, if_neg (by rw [hns]; exact fun h => by simp at h)]

lemma stripL_head (l : List Char) : headNotSpace (stripL l) := by
  rw [stripL]
  set a := l.dropWhile pyIsSpace with ha
  set b := a.reverse.dropWhile pyIsSpace with hb
  intro c hc
  rw [List.head?_reverse] at hc
  obtain ⟨w, hw⟩ : b <:+ a.reverse := by rw [hb]; exact List.dropWhile_suffix _
  have hbne : b ≠ [] := by
    intro hnil
    rw [hnil] at hc
    simp at hc
  have hglast : (w ++ b).getLast? = b.getLast? := by
    rw [List.getLast?_append]
    cases hx : b.getLast? with
    | none =>
      rw [List.getLast?_eq_none_iff] at hx
      exact absurd hx hbne
    | some y => rfl
  have hrev : a.reverse.getLast? = some c := by
    rw [← hw, hglast]
    exact hc
  rw [List.getLast?_reverse] at hrev
  exact dropWhile_head_false l c hrev

lemma stripL_last (l : List Char) : lastNotSpace (stripL l) := by
  rw [stripL]
  intro c hc
  rw [List.getLast?_reverse] at hc
  exact dropWhile_head_false ((l.dropWhile pyIsSpace).reverse) c hc

lemma stripL_id (l : List Char) (hh : headNotSpace l) (hl : lastNotSpace l) :
    stripL l = l := by
  rw [stripL, dropWhile_of_headNotSpace l hh, dropWhile_of_headNotSpace, List.reverse_reverse]
  intro c hc
  rw [List.head?_reverse] at hc
  exact hl c hc

lemma filter_dropWhile (l : List Char) :
    (l.dropWhile pyIsSpace).filter (fun c => !pyIsSpace c)
      = l.filter (fun c => !pyIsSpace c) := by
  induction l with
  | nil => rfl
  | cons a as ih =>
    by_cases hsp : pyIsSpace a = true
    · rw [List.dropWhile_cons, if_pos hsp, ih, List.filter_cons,
        if_neg (by rw [hsp]; simp)]
    · have hns := boolNotTrue hsp
      rw [List.dropWhile_cons, if_neg (by rw [hns]; exact fun h => by simp at h)]

lemma filter_stripL (l : List Char) :
    (stripL l).filter (fun c => !pyIsSpace c) = l.filter (fun c => !pyIsSpace c) := by
  rw [stripL, List.filter_reverse, filter_dropWhile, List.filter_reverse,
    List.reverse_reverse, filter_dropWhile]

lemma filter_collapseWsAux (l : List Char) :
    ∀ b, (collapseWsAux b l).filter (fun c => !pyIsSpace c)
      = l.filter (fun c => !pyIsSpace c) := by
  induction l with
  | nil => intro b; rfl
  | cons c cs ih =>
    intro b
    by_cases hsp : pyIsSpace c = true
    · cases b with
      | true =>
        rw [collapseWsAux, if_pos hsp, if_pos rfl, ih true, List.filter_cons,
          if_neg (by rw [hsp]; simp)]
      | false =>
        rw [collapseWsAux, if_pos hsp, if_neg (by simp), List.filter_cons,
          if_neg (by decide), ih true, List.filter_cons, if_neg (by rw [hsp]; simp)]
    · have hns := boolNotTrue hsp
      rw [collapseWsAux, if_neg (by rw [hns]; exact fun h => by simp at h),
        List.filter_cons, List.filter_cons, if_pos (by rw [hns]; simp),
        if_pos (by rw [hns]; simp), ih false]

/-- Claim C8: `clean_tibetan_text` is idempotent — collapsing whitespace
runs to single spaces and trimming both ends is a projection — and it
never touches the non-whitespace characters (internal punctuation and
script glyphs are preserved verbatim, in order). -/
theorem claim_C8 (s : String) :
    clean_tibetan_text (clean_tibetan_text s) = clean_tibetan_text s
    ∧ (clean_tibetan_text s).data.filter (fun c => !pyIsSpace c)
        = s.data.filter (fun c => !pyIsSpace c) := by
  constructor
  · show (⟨collapseWsAux false (stripL (collapseWsAux false (stripL s.data)))⟩ : String)
        = ⟨collapseWsAux false (stripL s.data)⟩
    rw [stripL_id (collapseWsAux false (stripL s.data))
        (collapseWsAux_head _ (stripL_head s.data))
        (collapseWsAux_last _ (stripL_last s.data) false),
      collapseWsAux_idem]
  · show (collapseWsAux false (stripL s.data)).filter (fun c => !pyIsSpace c)
        = s.data.filter (fun c => !pyIsSpace c)
    rw [filter_collapseWsAux, filter_stripL]
